import Mathlib

/-!
Shallow embedding of the `cuisinier` validation library (TypeScript).

Source files embedded here:
  * `src/validator.ts` — `ValidationError`, `ValidationError.Named`, `wrapError`,
    `lazy`, `optional`, `nullable`, `blankable`, `arrayOf`, `union`, `intersect`,
    `validationMessageOf`;
  * `src/field.ts` — `MapField`, `MultiField`, `field`, `fieldWithKey`,
    `fieldFromSnake`;
  * `src/model.ts` — `Model`, `Model.extend`, `Model.validate`, `model`;
  * `src/utils.ts` — `snake`;
  * `src/validators.ts` — `string`, `number`, `boolean`.

JavaScript values are modelled by the inductive type `Value`; a thrown
JavaScript error is modelled by `JsError` (`validation` for a plain
`ValidationError`, `named` for `ValidationError.Named`, `defect` for any other
`Error`, including the `TypeError` raised by a property read on `null` or
`undefined`).  A validator — a function that returns a value or throws — is a
Lean function into `Except JsError Value`.
-/

namespace Cuisinier

/-- A JavaScript runtime value, as far as the library observes it. -/
inductive Value where
  | vUndefined : Value
  | vNull : Value
  | vBool (b : Bool) : Value
  | vNum (n : Int) : Value
  | vStr (s : String) : Value
  | vArr (elems : List Value) : Value
  | vObj (props : List (String × Value)) : Value

/-- The JavaScript comparison `value === undefined`. -/
def isUndefined : Value → Bool
  | .vUndefined => true
  | _ => false

/-- The JavaScript comparison `value === null`. -/
def isNull : Value → Bool
  | .vNull => true
  | _ => false

/-- The JavaScript `typeof` operator.  Note that `typeof null`, as well as
`typeof` of any array or plain object, is the string `"object"`. -/
def typeofVal : Value → String
  | .vUndefined => "undefined"
  | .vNull => "object"
  | .vBool _ => "boolean"
  | .vNum _ => "number"
  | .vStr _ => "string"
  | .vArr _ => "object"
  | .vObj _ => "object"

/-- A thrown JavaScript error: a plain `ValidationError` carrying an assertion
message, a `ValidationError.Named` carrying a name and an assertion message
(`Named` is a subclass, so both are `instanceof ValidationError`), or any
other error (a defect), carrying its message. -/
inductive JsError where
  | validation (assertionMessage : String) : JsError
  | named (name : String) (assertionMessage : String) : JsError
  | defect (message : String) : JsError
deriving DecidableEq, Repr

/-- The check `e instanceof ValidationError` — true for plain and named validation
errors. -/
def isValidationError : JsError → Bool
  | .validation _ => true
  | .named _ _ => true
  | .defect _ => false

/-- The `assertionMessage` property of a `ValidationError`; a defect has
none (it is never read on one). -/
def assertionMessageOf : JsError → String
  | .validation m => m
  | .named _ m => m
  | .defect m => m

/-- The `message` property of the thrown error: `ValidationError` renders as
`"Expected <assertionMessage>."`, `ValidationError.Named` renders as
`"<name> expected <assertionMessage>."`. -/
def renderMessage : JsError → String
  | .validation m => "Expected " ++ m ++ "."
  | .named n m => n ++ " expected " ++ m ++ "."
  | .defect m => m

/-- The type `Validator<T>`: a function that either returns a value or throws. -/
def Validator : Type := Value → Except JsError Value

/-- Property write `o[key] = v` on an object with property list `props`:
an existing key is overwritten in place, a new key is appended. -/
def setProp {α : Type} (props : List (String × α)) (key : String) (v : α) :
    List (String × α) :=
  match props with
  | [] => [(key, v)]
  | (k, w) :: rest =>
    if k = key then (key, v) :: rest else (k, w) :: setProp rest key v

/-- First binding of `key` in an association list: the stored property of a
JavaScript object, or the field bound to a key in a model definition (keys
are unique in a real JavaScript object). -/
def lookupKey {α : Type} (entries : List (String × α)) (key : String) : Option α :=
  match entries with
  | [] => none
  | (k, v) :: rest => if k = key then some v else lookupKey rest key

/-- The effect of `Object.assign(target, source)` on property lists:
each own enumerable property of `source`, in order, is written onto
`target`. -/
def objAssignProps {α : Type} (target source : List (String × α)) :
    List (String × α) :=
  match source with
  | [] => target
  | (k, v) :: rest => objAssignProps (setProp target k v) rest

/-- The canonical array index denoted by `key`, if `key` is the decimal
string of some `i < len` (JavaScript array index access). -/
def arrIndex? (key : String) (len : Nat) : Option Nat :=
  match key.toNat? with
  | some i => if toString i = key ∧ i < len then some i else none
  | none => none

/-- JavaScript property read `data[key]`.  On `null` or `undefined` it throws
a `TypeError` (a defect, not a validation error); on an object it yields the
stored value or `undefined`; on an array it yields the element at a canonical
index, the length at `"length"`, and `undefined` otherwise; on the remaining
primitives (boxed on access) it yields `undefined` except for a string's
`"length"` and character indices. -/
def getProp (data : Value) (key : String) : Except JsError Value :=
  match data with
  | .vUndefined =>
    .error (.defect ("Cannot read properties of undefined (reading '" ++ key ++ "')"))
  | .vNull =>
    .error (.defect ("Cannot read properties of null (reading '" ++ key ++ "')"))
  | .vObj props =>
    .ok (match lookupKey props key with
      | some v => v
      | none => .vUndefined)
  | .vArr elems =>
    .ok (if key = "length" then .vNum elems.length
      else match arrIndex? key elems.length with
        | some i => elems.getD i .vUndefined
        | none => .vUndefined)
  | .vStr s =>
    .ok (if key = "length" then .vNum s.length
      else match arrIndex? key s.length with
        | some i => .vStr (String.mk [s.data.getD i ' '])
        | none => .vUndefined)
  | .vBool _ => .ok .vUndefined
  | .vNum _ => .ok .vUndefined

/-- Own enumerable properties of a value, as copied by `Object.assign` from a
source operand: an object contributes its properties, an array its indexed
elements, a string its indexed characters (`length` is not enumerable), and
every other value contributes nothing (`null`/`undefined` are skipped,
boxed numbers and booleans have no own enumerable properties). -/
def ownProps : Value → List (String × Value)
  | .vObj props => props
  | .vArr elems =>
    (List.range elems.length).map (fun i => (toString i, elems.getD i .vUndefined))
  | .vStr s =>
    (List.range s.length).map
      (fun i => (toString i, .vStr (String.mk [s.data.getD i ' '])))
  | _ => []

/-- The call `Object.assign({}, x, y)`: a fresh object receiving the own enumerable
properties of `x`, then those of `y` (later writes win). -/
def objAssign2 (x y : Value) : Value :=
  .vObj (objAssignProps (objAssignProps [] (ownProps x)) (ownProps y))

/-! ## `src/utils.ts` -/

/-- Whether `c` is an ASCII capital, i.e. matched by the regex class `[A-Z]`. -/
def isUpperAZ (c : Char) : Bool := 'A' ≤ c && c ≤ 'Z'

/-- Whether `c` is an ASCII digit, i.e. matched by `\d`. -/
def isDigit09 (c : Char) : Bool := '0' ≤ c && c ≤ '9'

mutual
/-- Scanner for `rest.replace(/[A-Z]|\d+/g, m => `_${m.toLowerCase()}`)`:
each capital becomes an underscore plus its lowercase form, each maximal
digit run becomes an underscore plus the run (digits are unchanged by
`toLowerCase`), any other character is kept. -/
def snakeScan : List Char → List Char
  | [] => []
  | c :: rest =>
    if isUpperAZ c then '_' :: Char.toLower c :: snakeScan rest
    else if isDigit09 c then '_' :: c :: snakeDigits rest
    else c :: snakeScan rest

/-- Continuation of `snakeScan` inside a digit run already opened with an
underscore: further digits extend the current `\d+` match. -/
def snakeDigits : List Char → List Char
  | [] => []
  | c :: rest =>
    if isDigit09 c then c :: snakeDigits rest
    else if isUpperAZ c then '_' :: Char.toLower c :: snakeScan rest
    else c :: snakeScan rest
end

/-- Function `snake` from `src/utils.ts`: lowercases the first character and replaces,
in the remainder, every capital letter or maximal digit run `m` with
`"_" + m.toLowerCase()`. -/
def snake (key : String) : String :=
  match key.data with
  | [] => ""
  | first :: rest => String.mk (Char.toLower first :: snakeScan rest)

/-! ## `src/validator.ts` -/

/-- Function `wrapError(validator, error)` from `src/validator.ts`: runs `validator`;
a thrown `ValidationError` (named or not) is replaced by a plain
`ValidationError` whose assertion message is `error` followed by a space and
the caught error's `assertionMessage`; any other error is rethrown. -/
def wrapError (validator : Validator) (error : String) : Validator :=
  fun value =>
    match validator value with
    | .ok r => .ok r
    | .error e =>
      if isValidationError e then
        .error (.validation (error ++ " " ++ assertionMessageOf e))
      else
        .error e

/-- Function `validationMessageOf(e)` from `src/validator.ts`: a named validation
error contributes `"<name>, that is <assertionMessage>"`, a plain one its
`assertionMessage`; any other error is rethrown. -/
def validationMessageOf (e : JsError) : Except JsError String :=
  match e with
  | .named n m => .ok (n ++ ", that is " ++ m)
  | .validation m => .ok m
  | .defect m => .error (.defect m)

/-- Combinator `union(a, b)` from `src/validator.ts`: tries `a`; on a thrown error takes
its validation message (rethrowing a defect), then tries `b` the same way;
when both fail with validation errors it throws a plain `ValidationError`
with message `"<messageA>; or <messageB>"`. -/
def union (a b : Validator) : Validator :=
  fun data =>
    match a data with
    | .ok r => .ok r
    | .error ea =>
      match validationMessageOf ea with
      | .error e => .error e
      | .ok messageA =>
        match b data with
        | .ok r => .ok r
        | .error eb =>
          match validationMessageOf eb with
          | .error e => .error e
          | .ok messageB => .error (.validation (messageA ++ "; or " ++ messageB))

/-- Combinator `intersect(a, b)` from `src/validator.ts`:
the body is `Object.assign({}, a(data), b(data))`.  JavaScript evaluates the arguments
left to right, so `a(data)` runs first and an exception it throws propagates
before `b(data)` is ever evaluated. -/
def intersect (a b : Validator) : Validator :=
  fun data =>
    match a data with
    | .error e => .error e
    | .ok ra =>
      match b data with
      | .error e => .error e
      | .ok rb => .ok (objAssign2 ra rb)

/-- A traced validator: alongside the outcome it reports the list of leaf
invocations it performed, used to reason about which validators a combinator
actually runs. -/
def TValidator : Type := Value → List String × Except JsError Value

/-- Combinator `intersect(a, b)` over traced validators, with the same JavaScript
evaluation order: `a(data)` is evaluated first and an exception aborts the
call before `b(data)` is evaluated; otherwise `b(data)` is evaluated and the
two results are merged by `Object.assign({}, ·, ·)`. -/
def intersectT (a b : TValidator) : TValidator :=
  fun data =>
    match a data with
    | (ta, .error e) => (ta, .error e)
    | (ta, .ok ra) =>
      match b data with
      | (tb, .error e) => (ta ++ tb, .error e)
      | (tb, .ok rb) => (ta ++ tb, .ok (objAssign2 ra rb))

/-- Helper for `arrayOf`: `values.map(...)` evaluated in index order, where a
thrown error at any index aborts the whole call with no partial result.
`index` is the index of the head element. -/
def arrayOfGo (validator : Validator) (index : Nat) :
    List Value → Except JsError (List Value)
  | [] => .ok []
  | v :: rest =>
    match wrapError validator
        ("an array with value at [" ++ toString index ++ "], that is") v with
    | .error e => .error e
    | .ok r =>
      match arrayOfGo validator (index + 1) rest with
      | .error e => .error e
      | .ok rs => .ok (r :: rs)

/-- Combinator `arrayOf(validator)` from `src/validator.ts`: a non-array input throws
`ValidationError('an array')`; an array is mapped element by element, each
element's validator wrapped with the prefix
`"an array with value at [<index>], that is"`. -/
def arrayOf (validator : Validator) : Validator :=
  fun values =>
    match values with
    | .vArr elems =>
      match arrayOfGo validator 0 elems with
      | .error e => .error e
      | .ok rs => .ok (.vArr rs)
    | _ => .error (.validation "an array")

/-- Combinator `optional(validator)` from `src/validator.ts`. -/
def optional (validator : Validator) : Validator :=
  fun value =>
    if isUndefined value then .ok value
    else wrapError validator "undefined or" value

/-- Combinator `nullable(validator)` from `src/validator.ts`. -/
def nullable (validator : Validator) : Validator :=
  fun value =>
    if isNull value then .ok value
    else wrapError validator "null or" value

/-- Combinator `blankable(validate)` from `src/validator.ts`: `null` and `undefined`
both become `undefined`; anything else is validated with the prefix
`"null, undefined, or"`. -/
def blankable (validate : Validator) : Validator :=
  fun value =>
    if isNull value || isUndefined value then .ok .vUndefined
    else wrapError validate "null, undefined, or" value

/-! ## `src/validators.ts` (leaf validators) -/

/-- Leaf validator `string` from `src/validators.ts`. -/
def string : Validator :=
  fun value =>
    match value with
    | .vStr s => .ok (.vStr s)
    | _ => .error (.validation "a string")

/-- Leaf validator `number` from `src/validators.ts`. -/
def number : Validator :=
  fun value =>
    match value with
    | .vNum n => .ok (.vNum n)
    | _ => .error (.validation "a number")

/-! ## `src/field.ts` -/

/-- Type `Field<T>`: either a `MapField` (a validator plus a key-transform
`toSourceKey`) or a `MultiField` (a validator fed the whole source object). -/
inductive Field where
  | mapField (validator : Validator) (toSourceKey : String → String) : Field
  | multiField (validator : Validator) : Field

/-- Method `Field#pluck(key, data)`: a `MapField` transforms the key, reads
`data[sourceKey]`, and feeds the result to its validator wrapped with the
prefix `"an object with attribute '<sourceKey>', that is"`; a `MultiField`
ignores the key and feeds the whole `data` to its validator. -/
def pluckField (f : Field) (key : String) (data : Value) :
    Except JsError Value :=
  match f with
  | .mapField validator toSourceKey =>
    let sourceKey := toSourceKey key
    match getProp data sourceKey with
    | .error e => .error e
    | .ok value =>
      wrapError validator
        ("an object with attribute '" ++ sourceKey ++ "', that is") value
  | .multiField validator => validator data

/-- Constructor `field(validator)` from `src/field.ts`: identity key transform. -/
def field (validator : Validator) : Field :=
  .mapField validator (fun key => key)

/-- Constructor `fieldWithKey(key, validator)` from `src/field.ts`: constant key. -/
def fieldWithKey (key : String) (validator : Validator) : Field :=
  .mapField validator (fun _ => key)

/-- Constructor `fieldFromSnake(validator)` from `src/field.ts`: snake-case key
transform. -/
def fieldFromSnake (validator : Validator) : Field :=
  .mapField validator snake

/-- Constructor `multiField(validator)` from `src/field.ts`. -/
def multiField (validator : Validator) : Field :=
  .multiField validator

/-! ## `src/model.ts` -/

/-- Type `Model`: an optional name and an ordered field definition
(`Object.keys` iterates a definition's string keys in insertion order). -/
structure Model where
  name : Option String
  definition : List (String × Field)

/-- The field-iteration loop of `Model#validate`: for each definition key in
order, pluck; a plucked `undefined` is not written to the result, any other
value is written under the definition key. -/
def validateFields (definition : List (String × Field)) (data : Value)
    (result : List (String × Value)) : Except JsError (List (String × Value)) :=
  match definition with
  | [] => .ok result
  | (key, f) :: rest =>
    match pluckField f key data with
    | .error e => .error e
    | .ok value =>
      if isUndefined value then validateFields rest data result
      else validateFields rest data (setProp result key value)

/-- The `try` block of `Model#validate`: a `typeof data !== 'object'` input
throws `ValidationError('an object')`; otherwise the fields are iterated and
the accumulated result object is returned. -/
def Model.validateBody (m : Model) (data : Value) : Except JsError Value :=
  if typeofVal data ≠ "object" then .error (.validation "an object")
  else
    match validateFields m.definition data [] with
    | .error e => .error e
    | .ok props => .ok (.vObj props)

/-- The `catch` block of `Model#validate`: a caught `ValidationError` is
rewrapped as `ValidationError.Named(name, e.assertionMessage)` when the
model has a name; everything else is rethrown. -/
def scopeError (name : Option String) (e : JsError) : JsError :=
  match name with
  | some n => if isValidationError e then .named n (assertionMessageOf e) else e
  | none => e

/-- Method `Model#validate(data)` from `src/model.ts` (also the model's behaviour
when called as a function). -/
def Model.validate (m : Model) (data : Value) : Except JsError Value :=
  match m.validateBody data with
  | .ok v => .ok v
  | .error e => .error (scopeError m.name e)

/-- The `extension` argument of `Model#extend`: another model or a raw
definition. -/
def extensionDefinition (ext : Model ⊕ List (String × Field)) :
    List (String × Field) :=
  match ext with
  | .inl extModel => extModel.definition
  | .inr defn => defn

/-- Method `Model#extend(name, extension)` from `src/model.ts`: a fresh model whose
definition is `Object.assign({}, this.definition, definition)`. -/
def Model.extend (m : Model) (name : Option String)
    (ext : Model ⊕ List (String × Field)) : Model :=
  { name := name,
    definition := objAssignProps (objAssignProps [] m.definition)
      (extensionDefinition ext) }

/-- Constructor `model(name, definition)` from `src/model.ts`. -/
def model (name : Option String) (definition : List (String × Field)) :
    Model :=
  { name := name, definition := definition }

/-! ## Concrete fixtures used by witnesses and counterexamples -/

/-- Validator of the test suite's `model('ModelA', {a: field(string)})`. -/
def modelAval : Validator := (model (some "ModelA") [("a", field string)]).validate

/-- Validator of the test suite's `model('ModelB', {b: field(number)})`. -/
def modelBval : Validator := (model (some "ModelB") [("b", field number)]).validate

/-- A validator that always throws a non-validation error, as the test
suite's `() => { throw new Error('Test error'); }` does. -/
def throwsDefect : Validator := fun _ => .error (.defect "Test error")

/-- A traced validator, labelled `a`, that fails with a validation error. -/
def tFailA : TValidator := fun _ => (["a"], .error (.validation "a string"))

/-- A traced validator, labelled `a`, that succeeds with `{k: 0}`. -/
def tOkA : TValidator := fun _ => (["a"], .ok (.vObj [("k", .vNum 0)]))

/-- A traced validator, labelled `b`, that succeeds with `{k: 1}`. -/
def tOkB : TValidator := fun _ => (["b"], .ok (.vObj [("k", .vNum 1)]))

/-- The model of spec scenario 1:
`{name: field(string), age: field(optional(number))}`. -/
def scenario1model : Model :=
  model none [("name", field string), ("age", field (optional number))]

/-- The input of spec scenario 1: `{name: 'Al'}`. -/
def scenario1input : Value := .vObj [("name", .vStr "Al")]

/-! ## Association-list lemmas (JavaScript object property semantics) -/

/-- Looking a key up after a property write: the written key reads back the
written value, every other key is untouched. -/
theorem lookupKey_setProp {α : Type} (props : List (String × α)) (k : String)
    (v : α) (key : String) :
    lookupKey (setProp props k v) key =
      if k = key then some v else lookupKey props key := by
  induction props with
  | nil => simp [setProp, lookupKey]
  | cons p rest ih =>
    obtain ⟨k', w⟩ := p
    by_cases h1 : k' = k
    · subst h1
      by_cases h2 : k' = key
      · subst h2
        simp [setProp, lookupKey]
      · simp [setProp, lookupKey, h2]
    · by_cases h2 : k' = key
      · subst h2
        have hk : ¬ k = k' := fun he => h1 he.symm
        simp [setProp, lookupKey, h1, hk]
      · simp [setProp, lookupKey, h1, h2, ih]

/-- A key is absent from an association list exactly when lookup misses. -/
theorem lookupKey_eq_none_iff {α : Type} (entries : List (String × α))
    (key : String) :
    lookupKey entries key = none ↔ key ∉ entries.map Prod.fst := by
  induction entries with
  | nil => simp [lookupKey]
  | cons p rest ih =>
    obtain ⟨k, v⟩ := p
    by_cases h : k = key
    · subst h
      simp [lookupKey]
    · have hunfold : lookupKey ((k, v) :: rest) key = lookupKey rest key := by
        simp [lookupKey, h]
      rw [hunfold, ih, List.map_cons]
      constructor
      · intro hn hor
        rcases List.mem_cons.mp hor with he | hm
        · exact h he.symm
        · exact hn hm
      · intro hn hm
        exact hn (List.mem_cons.mpr (Or.inr hm))

/-- Lookup over `Object.assign`: when the source's keys are unique, a key
bound by the source reads back the source's value, every other key falls
through to the target. -/
theorem lookupKey_objAssignProps {α : Type} (source : List (String × α)) :
    ∀ (target : List (String × α)) (key : String),
      (source.map Prod.fst).Nodup →
      lookupKey (objAssignProps target source) key =
        match lookupKey source key with
        | some v => some v
        | none => lookupKey target key := by
  induction source with
  | nil => intro target key _; simp [objAssignProps, lookupKey]
  | cons p rest ih =>
    intro target key hnd
    obtain ⟨k, v⟩ := p
    have hnd' : (k :: rest.map Prod.fst).Nodup := by simpa using hnd
    obtain ⟨hk, hrest'⟩ := List.nodup_cons.mp hnd'
    have hrest : (rest.map Prod.fst).Nodup := hrest'
    by_cases h : k = key
    · subst h
      have hnone : lookupKey rest k = none :=
        (lookupKey_eq_none_iff rest k).2 hk
      simp only [objAssignProps]
      rw [ih (setProp target k v) k hrest, hnone, lookupKey_setProp]
      simp [lookupKey, hnone]
    · simp only [objAssignProps]
      rw [ih (setProp target k v) key hrest, lookupKey_setProp]
      simp [lookupKey, h]

/-- Copying a unique-keyed property list onto a fresh empty object preserves
every lookup. -/
theorem lookupKey_objAssignProps_nil {α : Type} (props : List (String × α))
    (key : String) (h : (props.map Prod.fst).Nodup) :
    lookupKey (objAssignProps ([] : List (String × α)) props) key =
      lookupKey props key := by
  rw [lookupKey_objAssignProps props [] key h]
  cases hl : lookupKey props key <;> simp [lookupKey]

/-! ## Lemmas on the element scan of `arrayOf` -/

/-- A run of elements individually accepted by the validator is mapped to
its results by the element scan, at any starting index. -/
theorem arrayOfGo_ok_of_forall₂ (v : Validator)
    (elems results : List Value)
    (h : List.Forall₂ (fun x r => v x = .ok r) elems results) :
    ∀ i : Nat, arrayOfGo v i elems = .ok results := by
  induction h with
  | nil => intro i; rfl
  | @cons x r l₁ l₂ hxr _ ih =>
    intro i
    simp [arrayOfGo, wrapError, hxr, ih (i + 1)]

/-- After a run of accepted elements, a validation-kind failure of the next
element aborts the scan with the wrapped message at that element's index,
regardless of the elements after it. -/
theorem arrayOfGo_fails_at (v : Validator) (bad : Value) (e : JsError)
    (hbad : v bad = .error e) (hval : isValidationError e = true)
    (pre preResults : List Value)
    (h : List.Forall₂ (fun x r => v x = .ok r) pre preResults) :
    ∀ (i : Nat) (rest : List Value),
      arrayOfGo v i (pre ++ bad :: rest) =
        .error (.validation ("an array with value at [" ++
          toString (i + pre.length) ++ "], that is " ++ assertionMessageOf e)) := by
  induction h with
  | nil =>
    intro i rest
    simp [arrayOfGo, wrapError, hbad, hval, String.append_assoc]
  | @cons x r l₁ l₂ hxr _ ih =>
    intro i rest
    have hih := ih (i + 1) rest
    have harith : i + 1 + l₁.length = i + (x :: l₁).length := by
      simp [List.length_cons]
      omega
    rw [harith] at hih
    simp [arrayOfGo, wrapError, hxr, hih]

/-! ## Lemmas on the field-iteration loop of `Model#validate` -/

/-- A key outside the definition is never written by the field loop: its
binding in the final result is its binding in the accumulator. -/
theorem validateFields_lookup_of_not_mem (data : Value) :
    ∀ (defn : List (String × Field)) (acc props : List (String × Value)),
      validateFields defn data acc = .ok props →
      ∀ key, key ∉ defn.map Prod.fst → lookupKey props key = lookupKey acc key := by
  intro defn
  induction defn with
  | nil =>
    intro acc props h key _
    unfold validateFields at h
    injection h with h
    rw [h]
  | cons p rest ih =>
    intro acc props h key hk
    obtain ⟨k, f⟩ := p
    rw [List.map_cons] at hk
    have hkey : ¬ key = k := fun he => hk (List.mem_cons.mpr (Or.inl he))
    have hkrest : key ∉ rest.map Prod.fst :=
      fun hm => hk (List.mem_cons.mpr (Or.inr hm))
    unfold validateFields at h
    cases hp : pluckField f k data with
    | error e =>
      rw [hp] at h
      cases h
    | ok value =>
      rw [hp] at h
      replace h : (if isUndefined value = true then validateFields rest data acc
          else validateFields rest data (setProp acc k value)) = .ok props := h
      cases hvu : isUndefined value with
      | true =>
        rw [hvu, if_pos rfl] at h
        exact ih acc props h key hkrest
      | false =>
        rw [hvu] at h
        simp only [Bool.false_eq_true, if_false] at h
        rw [ih (setProp acc k value) props h key hkrest, lookupKey_setProp,
          if_neg (fun he : k = key => hkey he.symm)]

/-- A key bound in a unique-keyed definition plucks successfully on an
accepted input, and its binding in the result is its plucked value — or is
absent when the plucked value was `undefined` and the accumulator did not
bind it. -/
theorem validateFields_lookup_of_mem (data : Value) :
    ∀ (defn : List (String × Field)) (acc props : List (String × Value)),
      (defn.map Prod.fst).Nodup →
      validateFields defn data acc = .ok props →
      ∀ key f, lookupKey defn key = some f → lookupKey acc key = none →
        ∃ value, pluckField f key data = .ok value ∧
          lookupKey props key = if isUndefined value then none else some value := by
  intro defn
  induction defn with
  | nil =>
    intro acc props _ _ key f hf
    simp [lookupKey] at hf
  | cons p rest ih =>
    intro acc props hnd h key f hf hacc
    obtain ⟨k, g⟩ := p
    have hnd' : (k :: rest.map Prod.fst).Nodup := by simpa using hnd
    obtain ⟨hknotin, hndrest⟩ := List.nodup_cons.mp hnd'
    unfold validateFields at h
    cases hp : pluckField g k data with
    | error e =>
      rw [hp] at h
      cases h
    | ok value =>
      rw [hp] at h
      replace h : (if isUndefined value = true then validateFields rest data acc
          else validateFields rest data (setProp acc k value)) = .ok props := h
      by_cases hkey : k = key
      · subst hkey
        have hfg : g = f := by simpa [lookupKey] using hf
        subst hfg
        refine ⟨value, hp, ?_⟩
        cases hvu : isUndefined value with
        | true =>
          rw [hvu, if_pos rfl] at h
          rw [if_pos rfl]
          rw [validateFields_lookup_of_not_mem data rest acc props h k hknotin]
          exact hacc
        | false =>
          rw [hvu] at h
          simp only [Bool.false_eq_true, if_false] at h
          rw [if_neg (by simp)]
          rw [validateFields_lookup_of_not_mem data rest (setProp acc k value)
            props h k hknotin, lookupKey_setProp]
          simp
      · have hf' : lookupKey rest key = some f := by
          simpa [lookupKey, hkey] using hf
        cases hvu : isUndefined value with
        | true =>
          rw [hvu, if_pos rfl] at h
          exact ih acc props hndrest h key f hf' hacc
        | false =>
          rw [hvu] at h
          simp only [Bool.false_eq_true, if_false] at h
          have hacc' : lookupKey (setProp acc k value) key = none := by
            rw [lookupKey_setProp]
            simp [hkey, hacc]
          exact ih (setProp acc k value) props hndrest h key f hf' hacc'

/-! ## Claim theorems -/

/-- C1 (counterexample): the claim requires a model invoked on `null` or on
an array to fail immediately with assertion `"an object"`, but
`typeof null` and `typeof []` are both `"object"`, so they pass the model's
type check: the empty unnamed model returns `{}` on both instead of
failing. -/
theorem model_nonobject_counterexample :
    Model.validate (model none []) .vNull = .ok (.vObj []) ∧
    Model.validate (model none []) (.vArr []) = .ok (.vObj []) :=
  ⟨rfl, rfl⟩

/-- C1 (amended): for every model (named or unnamed) and every raw value
whose JavaScript `typeof` is not `"object"` — `undefined`, booleans,
numbers, strings — validation fails, independently of the field definition
and hence before any field is plucked, with a validation error whose
assertion message is `"an object"` (rewrapped with the model's name when it
has one); `null` and arrays have `typeof` `"object"` and pass this check. -/
theorem model_rejects_nonobject_typeof (m : Model) (raw : Value)
    (h : typeofVal raw ≠ "object") :
    Model.validate m raw =
      .error (match m.name with
        | some n => .named n "an object"
        | none => .validation "an object") := by
  unfold Model.validate Model.validateBody
  rw [if_pos h]
  cases m.name <;> rfl

/-- C1 (witness for the amended claim): the named model of the test suite,
applied to the string `''`, fails with `MyClass expected an object.`. -/
theorem model_rejects_nonobject_typeof_witness :
    Model.validate (model (some "MyClass") [("x", field string)]) (.vStr "") =
      .error (.named "MyClass" "an object") := by
  have h := model_rejects_nonobject_typeof
    (model (some "MyClass") [("x", field string)]) (.vStr "") (by decide)
  simpa using h

/-- C2 (counterexample): with a traced `a` that fails and a traced `b`, the
intersection's invocation trace on `{}` is exactly `["a"]` — `b` was not
invoked even though the claim asserts both validators run regardless of
`a`'s success — while `a`'s error is the one reported. -/
theorem intersect_skips_b_counterexample :
    intersectT tFailA tOkB (.vObj []) =
      (["a"], .error (.validation "a string")) ∧
    "b" ∉ (intersectT tFailA tOkB (.vObj [])).fst :=
  ⟨rfl, by decide⟩

/-- C2 (amended): `intersect(a, b)` evaluates `a(data)` first; when `a`
fails, `a`'s error is the one reported and `b` is not invoked (the trace is
`a`'s alone); when `a` succeeds, `b` is invoked on the same input, a failure
of `b` propagates, and when both succeed the two result objects are
shallow-merged by `Object.assign({}, ·, ·)`, in which the second operand's
keys take precedence on key collision. -/
theorem intersect_amended (a b : TValidator) (d : Value)
    (ta tb : List String) (ra rb : Except JsError Value)
    (ha : a d = (ta, ra)) (hb : b d = (tb, rb)) :
    (intersectT a b d =
      match ra with
      | .error e => (ta, .error e)
      | .ok va =>
        match rb with
        | .error e => (ta ++ tb, .error e)
        | .ok vb => (ta ++ tb, .ok (objAssign2 va vb))) ∧
    (∀ (pa pb : List (String × Value)) (key : String),
      (pa.map Prod.fst).Nodup → (pb.map Prod.fst).Nodup →
      lookupKey (objAssignProps (objAssignProps [] pa) pb) key =
        match lookupKey pb key with
        | some v => some v
        | none => lookupKey pa key) := by
  constructor
  · cases ra <;> cases rb <;> simp [intersectT, ha, hb]
  · intro pa pb key hpa hpb
    rw [lookupKey_objAssignProps pb _ key hpb]
    cases hl : lookupKey pb key
    · simp [lookupKey_objAssignProps_nil pa key hpa]
    · rfl

/-- C2 (witness): with both traced validators succeeding, the trace is
`["a", "b"]` and the merged object takes `b`'s value `1` for the colliding
key `k`. -/
theorem intersect_amended_witness :
    intersectT tOkA tOkB (.vObj []) =
      (["a", "b"], .ok (.vObj [("k", .vNum 1)])) := by
  have h := (intersect_amended tOkA tOkB (.vObj []) ["a"] ["b"]
    (.ok (.vObj [("k", .vNum 0)])) (.ok (.vObj [("k", .vNum 1)])) rfl rfl).1
  exact h

/-- C3: error scoping in `Model#validate` — when the body (the non-object
check or any field pluck) throws a validation-kind error, a model with a
name rewraps it as `ValidationError.Named(name, assertion)`, which renders
as `<name> expected <assertion>.`; an unnamed model propagates the error
unchanged; and a non-validation defect propagates unchanged regardless of
the model's name. -/
theorem model_error_scoping (m : Model) (data : Value) (e : JsError)
    (h : Model.validateBody m data = .error e) :
    (∀ n, m.name = some n → isValidationError e = true →
      Model.validate m data = .error (.named n (assertionMessageOf e)) ∧
      renderMessage (.named n (assertionMessageOf e)) =
        n ++ " expected " ++ assertionMessageOf e ++ ".") ∧
    (m.name = none → Model.validate m data = .error e) ∧
    (isValidationError e = false → Model.validate m data = .error e) := by
  refine ⟨?_, ?_, ?_⟩
  · intro n hn hv
    refine ⟨?_, rfl⟩
    unfold Model.validate
    rw [h]
    simp [scopeError, hn, hv]
  · intro hn
    unfold Model.validate
    rw [h]
    simp [scopeError, hn]
  · intro hv
    unfold Model.validate
    rw [h]
    cases hn : m.name <;> simp [scopeError, hv]

/-- C3 (witness): spec scenario 5 — `model('User', {age: field(number)})`
applied to `{age: 'x'}` throws the named error whose message is
`User expected an object with attribute 'age', that is a number.`. -/
theorem model_error_scoping_witness :
    Model.validate (model (some "User") [("age", field number)])
        (.vObj [("age", .vStr "x")]) =
      .error (.named "User" "an object with attribute 'age', that is a number") ∧
    renderMessage
        (.named "User" "an object with attribute 'age', that is a number") =
      "User expected an object with attribute 'age', that is a number." := by
  have h := (model_error_scoping (model (some "User") [("age", field number)])
    (.vObj [("age", .vStr "x")])
    (.validation "an object with attribute 'age', that is a number") rfl).1
    "User" rfl rfl
  exact h

/-- C4: `union(a, b)` error propagation — a non-validation defect thrown by
`a` propagates immediately, for every `b` (the fallback is bypassed); after
a validation-kind failure of `a`, a defect thrown by `b` propagates; only
when both fail with validation-kind errors does the union fail, combining
the two messages as `<messageA>; or <messageB>`, where a failing named
model contributes `<name>, that is <assertion>`. -/
theorem union_defect_propagation (a b : Validator) (d : Value) :
    (∀ msg, a d = .error (.defect msg) → union a b d = .error (.defect msg)) ∧
    (∀ ea mb, a d = .error ea → isValidationError ea = true →
      b d = .error (.defect mb) → union a b d = .error (.defect mb)) ∧
    (∀ ea eb ma mb, a d = .error ea → b d = .error eb →
      validationMessageOf ea = .ok ma → validationMessageOf eb = .ok mb →
      union a b d = .error (.validation (ma ++ "; or " ++ mb))) ∧
    (∀ n m, validationMessageOf (.named n m) = .ok (n ++ ", that is " ++ m)) := by
  refine ⟨?_, ?_, ?_, fun n m => rfl⟩
  · intro msg ha
    simp [union, ha, validationMessageOf]
  · intro ea mb ha hva hb
    cases ea with
    | validation m => simp [union, ha, hb, validationMessageOf]
    | named n m => simp [union, ha, hb, validationMessageOf]
    | defect m => simp [isValidationError] at hva
  · intro ea eb ma mb ha hb hma hmb
    simp [union, ha, hb, hma, hmb]

/-- C4 (witness): a defect in the first validator propagates even when the
second would accept the input, and two failing named models combine into
`ModelA, that is ...; or ModelB, that is ...`. -/
theorem union_defect_propagation_witness :
    union throwsDefect modelAval (.vObj [("a", .vStr "asdf")]) =
      .error (.defect "Test error") ∧
    union modelAval modelBval (.vObj [("a", .vNum 1234), ("b", .vStr "asdf")]) =
      .error (.validation
        "ModelA, that is an object with attribute 'a', that is a string; or ModelB, that is an object with attribute 'b', that is a number") := by
  constructor
  · exact (union_defect_propagation throwsDefect modelAval _).1 "Test error" rfl
  · exact (union_defect_propagation modelAval modelBval _).2.2.1
      (.named "ModelA" "an object with attribute 'a', that is a string")
      (.named "ModelB" "an object with attribute 'b', that is a number")
      "ModelA, that is an object with attribute 'a', that is a string"
      "ModelB, that is an object with attribute 'b', that is a number"
      rfl rfl rfl rfl

/-- C6: for every model with unique definition keys and every input it
accepts, the result object binds exactly those definition keys whose
plucked value is not `undefined`, each to its plucked value; a key whose
pluck returned `undefined` is absent from the result (not bound to an
explicit `undefined`), and no key outside the definition appears. -/
theorem model_result_keys (m : Model) (data : Value)
    (props : List (String × Value))
    (hnd : (m.definition.map Prod.fst).Nodup)
    (h : Model.validate m data = .ok (.vObj props)) :
    (∀ key f, lookupKey m.definition key = some f →
      ∃ value, pluckField f key data = .ok value ∧
        lookupKey props key = if isUndefined value then none else some value) ∧
    (∀ key, lookupKey m.definition key = none → lookupKey props key = none) := by
  have hvf : validateFields m.definition data [] = .ok props := by
    unfold Model.validate at h
    cases hb : Model.validateBody m data with
    | error e =>
      rw [hb] at h
      cases h
    | ok v =>
      rw [hb] at h
      injection h with hv
      subst hv
      unfold Model.validateBody at hb
      by_cases ht : typeofVal data ≠ "object"
      · rw [if_pos ht] at hb
        cases hb
      · rw [if_neg ht] at hb
        cases hfields : validateFields m.definition data [] with
        | error e =>
          rw [hfields] at hb
          cases hb
        | ok ps =>
          rw [hfields] at hb
          injection hb with hb
          injection hb with hb
          rw [hb]
  constructor
  · intro key f hf
    exact validateFields_lookup_of_mem data m.definition [] props hnd hvf key f hf rfl
  · intro key hf
    have hnm : key ∉ m.definition.map Prod.fst := (lookupKey_eq_none_iff _ _).mp hf
    rw [validateFields_lookup_of_not_mem data m.definition [] props hvf key hnm]
    rfl

/-- C6 (witness): spec scenario 1 — the model
`{name: field(string), age: field(optional(number))}` on `{name: 'Al'}`
returns an object binding `name` to `'Al'` in which the key `age`, whose
pluck returned `undefined`, is absent. -/
theorem model_result_keys_witness :
    lookupKey [("name", Value.vStr "Al")] "name" = some (.vStr "Al") ∧
    lookupKey [("name", Value.vStr "Al")] "age" = none := by
  have h := model_result_keys scenario1model scenario1input
    [("name", .vStr "Al")] (by decide) rfl
  constructor
  · obtain ⟨v, hv, hl⟩ := h.1 "name" (field string) rfl
    have hpl : pluckField (field string) "name" scenario1input =
        .ok (.vStr "Al") := rfl
    rw [hpl] at hv
    have hveq : Value.vStr "Al" = v := Except.ok.inj hv
    rw [← hveq] at hl
    simpa using hl
  · obtain ⟨v, hv, hl⟩ := h.1 "age" (field (optional number)) rfl
    have hpl : pluckField (field (optional number)) "age" scenario1input =
        .ok .vUndefined := rfl
    rw [hpl] at hv
    have hveq : Value.vUndefined = v := Except.ok.inj hv
    rw [← hveq] at hl
    simpa using hl

/-- C7: `Model#extend(name, ext)` — with either a raw definition or another
model (whose definition is then extracted) as the extension, the result is
a fresh model carrying the given name whose definition is
`Object.assign({}, base, extension)`: every key of the extension reads back
the extension's field, every other key the base's field. The base model is
not mutated — its name and definition are untouched and its validation
behaviour on any input is exactly that of a model built from its original
name and definition. -/
theorem model_extend_spec (m : Model) (name : Option String)
    (ext : Model ⊕ List (String × Field))
    (hbase : (m.definition.map Prod.fst).Nodup)
    (hext : ((extensionDefinition ext).map Prod.fst).Nodup) :
    (Model.extend m name ext).name = name ∧
    ((Model.extend m name ext).definition =
      objAssignProps (objAssignProps [] m.definition) (extensionDefinition ext)) ∧
    (∀ key, lookupKey (Model.extend m name ext).definition key =
      match lookupKey (extensionDefinition ext) key with
      | some f => some f
      | none => lookupKey m.definition key) ∧
    (∀ data, Model.validate m data =
      Model.validate (model m.name m.definition) data) := by
  refine ⟨rfl, rfl, ?_, fun data => rfl⟩
  intro key
  show lookupKey (objAssignProps (objAssignProps [] m.definition)
    (extensionDefinition ext)) key = _
  rw [lookupKey_objAssignProps _ _ key hext]
  cases hl : lookupKey (extensionDefinition ext) key
  · simp [lookupKey_objAssignProps_nil m.definition key hbase]
  · rfl

/-- C7 (witness): extending `{e: field(number)}` with the model
`{e: field(string), x: field(number)}` under the name `Ext` yields a model
named `Ext` whose field for the colliding key `e` is the extension's
`field(string)`. -/
theorem model_extend_spec_witness :
    (Model.extend (model none [("e", field number)]) (some "Ext")
        (.inl (model none [("e", field string), ("x", field number)]))).name =
      some "Ext" ∧
    lookupKey (Model.extend (model none [("e", field number)]) (some "Ext")
        (.inl (model none
          [("e", field string), ("x", field number)]))).definition "e" =
      some (field string) := by
  have h := model_extend_spec (model none [("e", field number)]) (some "Ext")
    (.inl (model none [("e", field string), ("x", field number)]))
    (by decide) (by decide)
  exact ⟨h.1, (h.2.2.1 "e").trans rfl⟩

/-- C8: `union(a, b)` is left-biased — whenever `a` succeeds on an input,
the union returns `a`'s result, for every `b`, so `b` plays no part in the
outcome. -/
theorem union_left_biased (a b : Validator) (d r : Value)
    (h : a d = .ok r) : union a b d = .ok r := by
  unfold union
  rw [h]

/-- C8 (witness): `ModelA` and `ModelB` both accept `{a: 'asdf', b: 1234}`,
and the union returns `ModelA`'s output `{a: 'asdf'}`, not `ModelB`'s
output `{b: 1234}`. -/
theorem union_left_biased_witness :
    union modelAval modelBval (.vObj [("a", .vStr "asdf"), ("b", .vNum 1234)]) =
      .ok (.vObj [("a", .vStr "asdf")]) ∧
    modelBval (.vObj [("a", .vStr "asdf"), ("b", .vNum 1234)]) =
      .ok (.vObj [("b", .vNum 1234)]) :=
  ⟨union_left_biased modelAval modelBval _ _ rfl, rfl⟩

/-- C5: `arrayOf(v)` rejects every non-array with assertion `an array`;
returns `[]` on `[]`; validates the elements of an array in index order and
returns the array of results when all pass; and fails at the FIRST invalid
element's index `i` with assertion
`an array with value at [i], that is <inner message>`, referencing `i`
specifically whatever comes after it, producing no partial result. -/
theorem arrayOf_spec (v : Validator) :
    (∀ x, (∀ es, x ≠ .vArr es) → arrayOf v x = .error (.validation "an array")) ∧
    (arrayOf v (.vArr []) = .ok (.vArr [])) ∧
    (∀ elems results, List.Forall₂ (fun x r => v x = .ok r) elems results →
      arrayOf v (.vArr elems) = .ok (.vArr results)) ∧
    (∀ pre preResults bad rest e,
      List.Forall₂ (fun x r => v x = .ok r) pre preResults →
      v bad = .error e → isValidationError e = true →
      arrayOf v (.vArr (pre ++ bad :: rest)) =
        .error (.validation ("an array with value at [" ++ toString pre.length ++
          "], that is " ++ assertionMessageOf e))) := by
  refine ⟨?_, rfl, ?_, ?_⟩
  · intro x hx
    cases x with
    | vArr es => exact absurd rfl (hx es)
    | vUndefined => rfl
    | vNull => rfl
    | vBool b => rfl
    | vNum n => rfl
    | vStr s => rfl
    | vObj props => rfl
  · intro elems results h
    simp [arrayOf, arrayOfGo_ok_of_forall₂ v elems results h 0]
  · intro pre preResults bad rest e h hbad hval
    have hgo := arrayOfGo_fails_at v bad e hbad hval pre preResults h 0 rest
    rw [Nat.zero_add] at hgo
    simp [arrayOf, hgo]

/-- C5 (witness): `arrayOf(string)` on `['a', 1, 2]` fails at index 1 (not
at the also-invalid index 2) with
`an array with value at [1], that is a string`; a non-array fails with
`an array`; `[]` maps to `[]`; an all-valid array maps to its results in
order. -/
theorem arrayOf_spec_witness :
    arrayOf string (.vArr [.vStr "a", .vNum 1, .vNum 2]) =
      .error (.validation "an array with value at [1], that is a string") ∧
    arrayOf string (.vObj []) = .error (.validation "an array") ∧
    arrayOf string (.vArr []) = .ok (.vArr []) ∧
    arrayOf string (.vArr [.vStr "x", .vStr "y"]) =
      .ok (.vArr [.vStr "x", .vStr "y"]) := by
  refine ⟨?_, ?_, (arrayOf_spec string).2.1, ?_⟩
  · exact ((arrayOf_spec string).2.2.2 [.vStr "a"] [.vStr "a"] (.vNum 1)
      [.vNum 2] (.validation "a string")
      (List.Forall₂.cons rfl List.Forall₂.nil) rfl rfl).trans rfl
  · exact (arrayOf_spec string).1 (.vObj []) (fun es h => Value.noConfusion h)
  · exact (arrayOf_spec string).2.2.1 [.vStr "x", .vStr "y"]
      [.vStr "x", .vStr "y"]
      (List.Forall₂.cons rfl (List.Forall₂.cons rfl List.Forall₂.nil))

/-- C9: `MapField#pluck` — for every key transform (identity, constant and
snake-case are the instances built by `field`, `fieldWithKey` and
`fieldFromSnake`), plucking applies the transform to the requested key to
obtain the source key, reads `data[sourceKey]` from the source object
(an absent key yields `undefined`, never an error at this stage), and feeds
the value to the validator wrapped with the prefix
`an object with attribute '<sourceKey>', that is`, so a validation-kind
failure of the validator renders as
`Expected an object with attribute '<sourceKey>', that is <inner>.`. -/
theorem mapField_pluck_spec (validator : Validator)
    (toSourceKey : String → String) (key : String)
    (props : List (String × Value)) :
    (pluckField (.mapField validator toSourceKey) key (.vObj props) =
      wrapError validator
        ("an object with attribute '" ++ toSourceKey key ++ "', that is")
        (match lookupKey props (toSourceKey key) with
          | some v => v
          | none => .vUndefined)) ∧
    (lookupKey props (toSourceKey key) = none →
      getProp (.vObj props) (toSourceKey key) = .ok .vUndefined) ∧
    (∀ value e, validator value = .error e → isValidationError e = true →
      wrapError validator
          ("an object with attribute '" ++ toSourceKey key ++ "', that is")
          value =
        .error (.validation ("an object with attribute '" ++ toSourceKey key ++
          "', that is " ++ assertionMessageOf e)) ∧
      renderMessage (.validation ("an object with attribute '" ++
          toSourceKey key ++ "', that is " ++ assertionMessageOf e)) =
        "Expected " ++ ("an object with attribute '" ++ toSourceKey key ++
          "', that is " ++ assertionMessageOf e) ++ ".") := by
  refine ⟨rfl, ?_, ?_⟩
  · intro h
    simp [getProp, h]
  · intro value e hv hval
    refine ⟨?_, rfl⟩
    simp [wrapError, hv, hval, String.append_assoc]

/-- C9 (witness): spec scenario 3 — the snake-case field requested as
`fullName` reads `full_name`: on `{full_name: 'Al'}` it returns `'Al'`, and
on `{fullName: 'Al'}` (wrong source key) it fails referencing
`'full_name'`, rendering
`Expected an object with attribute 'full_name', that is a string.`. -/
theorem mapField_pluck_spec_witness :
    pluckField (fieldFromSnake string) "fullName"
        (.vObj [("full_name", .vStr "Al")]) = .ok (.vStr "Al") ∧
    pluckField (fieldFromSnake string) "fullName"
        (.vObj [("fullName", .vStr "Al")]) =
      .error (.validation
        "an object with attribute 'full_name', that is a string") ∧
    renderMessage (.validation
        "an object with attribute 'full_name', that is a string") =
      "Expected an object with attribute 'full_name', that is a string." := by
  have h1 := (mapField_pluck_spec string snake "fullName"
    [("full_name", .vStr "Al")]).1
  have h2 := mapField_pluck_spec string snake "fullName"
    [("fullName", .vStr "Al")]
  have h3 := (h2.2.2 .vUndefined (.validation "a string") rfl rfl).1
  exact ⟨h1.trans rfl, h2.1.trans h3, rfl⟩

/-- C10: `wrapError` discards the name of a named validation error — the
rethrown error is a plain unnamed `ValidationError` whose assertion is the
given message followed by a space and the inner assertion — while `union`'s
`validationMessageOf` preserves the inner name as `<name>, that is
<assertion>`. -/
theorem wrapError_discards_name (v : Validator) (p : String) (value : Value)
    (n m : String) (h : v value = .error (.named n m)) :
    wrapError v p value = .error (.validation (p ++ " " ++ m)) ∧
    validationMessageOf (.named n m) = .ok (n ++ ", that is " ++ m) := by
  refine ⟨?_, rfl⟩
  unfold wrapError
  rw [h]
  rfl

/-- C10 (witness): a field-style key prefix wrapped over the failing named
model `ModelA` yields a plain error in which the name `ModelA` does not
appear. -/
theorem wrapError_discards_name_witness :
    wrapError modelAval "an object with attribute 'outer', that is"
        (.vObj [("a", .vNum 1234)]) =
      .error (.validation
        "an object with attribute 'outer', that is an object with attribute 'a', that is a string") := by
  have h := wrapError_discards_name modelAval
    "an object with attribute 'outer', that is" (.vObj [("a", .vNum 1234)])
    "ModelA" "an object with attribute 'a', that is a string" rfl
  exact h.1

end Cuisinier
